import Mathlib

/-!
Verification of core properties of the `web-audio-api-rs` render engine:
the block resampler (`src/media/resampling.rs`), the media-stream
destination bridge (`src/node/media_stream_destination.rs`) and the
render-thread parameter accessor (`src/process.rs`).

Samples are abstracted as integers: none of the verified properties
depends on floating-point arithmetic — they concern buffer lengths,
concatenation, splitting, zero padding, error propagation and channel
routing, all of which are value-generic.
-/

set_option autoImplicit false

namespace WebAudio

/-- One channel of audio samples.  The resampler claims are single-channel
generic (the source treats every channel of an `AudioBuffer` uniformly in
`extend`, `split_off` and zero padding), so an `AudioBuffer` on the
resampler path is modelled by its sample sequence. -/
abbrev Buf := List Int

/-- Modelled from the spec: `AudioBuffer::resample` performs in-place rate
conversion to the target rate.  Every claim below considers buffers already
at the target sample rate, where the conversion is the identity, so the
model fixes the conversion step to the identity. -/
def resampleTo (data : Buf) : Buf := data

/-- Modelled from the spec: `AudioBuffer::extend` concatenates a second
buffer onto the first. -/
def bufExtend (b p : Buf) : Buf := b ++ p

/-- Modelled from the spec: `AudioBuffer::new` with a length option builds
a zero (silent) buffer of that length — the padding buffer of the
resampler. -/
def zeroBuf (n : Nat) : Buf := List.replicate n (0 : Int)

/-- State of `Resampler` (`src/media/resampling.rs`): desired chunk length
`sample_len`, the not-yet-pulled input stream (a finite sequence of
buffer-or-error items), and the internal leftover `buffer`.
The `sample_rate` field is omitted: with `resampleTo` the identity it is
never consulted. -/
structure ResamplerState (ε : Type) where
  sample_len : Nat
  input : List (Except ε Buf)
  buffer : Option Buf
deriving Repr

/-- The post-loop emit logic of `Resampler::next`: with an accumulator of
length at least `L`, either emit it exactly (`buffer.length() == self.sample_len`)
or split at `L` (`buffer.split_off(self.sample_len)`), emitting the first
part and retaining the second as the new leftover. -/
def resampleEmit {ε : Type} (L : Nat) (buffer : Buf) (input : List (Except ε Buf)) :
    Option (Except ε Buf) × ResamplerState ε :=
  if buffer.length = L then
    (some (.ok buffer), ⟨L, input, none⟩)
  else
    (some (.ok (buffer.take L)), ⟨L, input, some (buffer.drop L)⟩)

/-- The `while buffer.length() < self.sample_len` loop of
`Resampler::next`, followed by `resampleEmit`: pull items and extend the
accumulator; on exhaustion zero-pad and emit as the final item; on an
error item return it immediately. -/
def resampleLoop {ε : Type} (L : Nat) :
    Buf → List (Except ε Buf) → Option (Except ε Buf) × ResamplerState ε
  | buffer, [] =>
    if buffer.length < L then
      (some (.ok (bufExtend buffer (zeroBuf (L - buffer.length)))), ⟨L, [], none⟩)
    else resampleEmit L buffer []
  | buffer, x :: rest =>
    if buffer.length < L then
      match x with
      | .error e => (some (.error e), ⟨L, rest, none⟩)
      | .ok data => resampleLoop L (bufExtend buffer (resampleTo data)) rest
    else resampleEmit L buffer (x :: rest)

/-- `Resampler::next` (`src/media/resampling.rs`): take the leftover
buffer if present; otherwise pull one input item (ending the sequence on
`None`, propagating an error immediately); then run the accumulation
loop. -/
def Resampler.next {ε : Type} (st : ResamplerState ε) :
    Option (Except ε Buf) × ResamplerState ε :=
  match st.buffer with
  | none =>
    match st.input with
    | [] => (none, ⟨st.sample_len, [], none⟩)
    | .error e :: rest => (some (.error e), ⟨st.sample_len, rest, none⟩)
    | .ok data :: rest => resampleLoop st.sample_len (resampleTo data) rest
  | some data => resampleLoop st.sample_len data st.input

/-- Iterate `Resampler.next`, collecting the emitted items.  The boolean
is `true` when the iterator signalled end-of-sequence (`next` returned
`none`) within the given fuel, i.e. the collected list is the complete
emitted sequence. -/
def Resampler.drain {ε : Type} : Nat → ResamplerState ε → List (Except ε Buf) × Bool
  | 0, _ => ([], false)
  | fuel + 1, st =>
    match Resampler.next st with
    | (none, _) => ([], true)
    | (some item, st') =>
      let r := Resampler.drain fuel st'
      (item :: r.1, r.2)

/-! ## Destination bridge (`src/node/media_stream_destination.rs`) -/

/-- The render-thread input of one block: an `AudioRenderQuantum`, a set of
channels of samples. -/
structure AudioRenderQuantum where
  channels : List (List Int)
deriving Repr

/-- The user-facing `AudioBuffer` built by `DestinationRenderer::process`
via `AudioBuffer::from(samples, sample_rate)`: owned channel data plus a
sample-rate tag. -/
structure ABuffer where
  samples : List (List Int)
  sample_rate : Nat
deriving Repr

/-- Modelled from the spec: the bounded capacity-one crossbeam channel of
the destination bridge is a single-slot mailbox; `try_recv` takes the
pending item, if any, leaving the slot empty, and never blocks. -/
def channelTryRecv {α : Type} (slot : Option α) : Option α × Option α :=
  (slot, none)

/-- Modelled from the spec: sending on the capacity-one channel succeeds
(returning `true`) exactly when the slot is free; a full slot would refuse
the item.  The render thread only ever calls this after `channelTryRecv`,
so the send is non-blocking. -/
def channelSend {α : Type} (slot : Option α) (x : α) : Option α × Bool :=
  match slot with
  | none => (some x, true)
  | some y => (some y, false)

/-- `DestinationRenderer::process`: read the single input quantum
(`inputs[0]`; the node declares exactly one input, so the result is `none`
— the out-of-bounds panic — only on an impossible empty input set), copy
its channels into an owned `ABuffer`, discard any unconsumed previous item
with `try_recv`, send the new buffer, and return `false`.
The result is `(new slot, send succeeded, returned continuation flag)`. -/
def DestinationRenderer.process (inputs : List AudioRenderQuantum)
    (slot : Option ABuffer) (sample_rate : Nat) :
    Option (Option ABuffer × Bool × Bool) :=
  match inputs with
  | [] => none
  | input :: _ =>
    let samples : List (List Int) := input.channels.map (fun c => c)
    let buffer : ABuffer := ⟨samples, sample_rate⟩
    let slot₁ := (channelTryRecv slot).2
    let sent := channelSend slot₁ buffer
    some (sent.1, sent.2, false)

/-- Events of an interleaved execution of the bridge: the render thread
processes one block, or the consumer polls the receiving end once. -/
inductive BridgeEvent where
  | renderBlock (q : AudioRenderQuantum)
  | consume
deriving Repr

/-- One step of the interleaved bridge execution over
`(channel slot, buffers observed so far)`.  A consumer poll takes the
pending buffer if there is one and observes nothing otherwise (it would
still be blocked waiting). -/
def bridgeStep (sample_rate : Nat) :
    Option ABuffer × List ABuffer → BridgeEvent → Option ABuffer × List ABuffer
  | (slot, observed), .renderBlock q =>
    match DestinationRenderer.process [q] slot sample_rate with
    | some (slot', _, _) => (slot', observed)
    | none => (slot, observed)
  | (slot, observed), .consume =>
    match slot with
    | some b => (none, observed ++ [b])
    | none => (none, observed)

/-- Run an interleaved bridge execution from an empty channel. -/
def bridgeRun (sample_rate : Nat) (evs : List BridgeEvent) :
    Option ABuffer × List ABuffer :=
  evs.foldl (bridgeStep sample_rate) (none, [])

/-- The blocks rendered during an execution, in order. -/
def renderedBlocks : List BridgeEvent → List AudioRenderQuantum
  | [] => []
  | .renderBlock q :: evs => q :: renderedBlocks evs
  | .consume :: evs => renderedBlocks evs

/-- The owned buffer `process` builds from one input quantum. -/
def blockBuffer (sample_rate : Nat) (q : AudioRenderQuantum) : ABuffer :=
  ⟨q.channels.map (fun c => c), sample_rate⟩

/-- Error of the consumer stream when the channel is disconnected
(crossbeam `RecvError`). -/
inductive RecvError where
  | disconnected
deriving DecidableEq, Repr

/-- Modelled from the spec: the blocking `recv` of the capacity-one
channel returns the pending buffer if there is one; with the sending end
dropped and the channel empty it returns the disconnected error; otherwise
it is still waiting for an item (`none` here, a state in which the real
call blocks rather than returning). -/
def channelRecv (slot : Option ABuffer) (senderDropped : Bool) :
    Option (Except RecvError ABuffer) × Option ABuffer :=
  match slot with
  | some b => (some (.ok b), none)
  | none => if senderDropped then (some (.error .disconnected), none) else (none, none)

/-- `AudioDestinationNodeStream::next`: forward `recv`'s buffer as
`Some(Ok(_))` and `recv`'s error as `Some(Err(_))` — never as `None`. -/
def AudioDestinationNodeStream.next (slot : Option ABuffer) (senderDropped : Bool) :
    Option (Except RecvError ABuffer) × Option ABuffer :=
  match channelRecv slot senderDropped with
  | (some (.ok buf), slot') => (some (.ok buf), slot')
  | (some (.error e), slot') => (some (.error e), slot')
  | (none, slot') => (none, slot')

/-- Modelled from the spec: a unit is pruned only when it is unreachable
from the destination and its own processing call has signalled no further
tail output (returned `false`). -/
def pruneEligible (unreachable keepAlive : Bool) : Bool :=
  unreachable && !keepAlive

/-! ## Parameter accessor (`src/process.rs`) -/

/-- The engine's fixed block size, `crate::BUFFER_SIZE` (one render
quantum). -/
def BUFFER_SIZE : Nat := 128

/-- The part of `graph::Node` the accessor reads — modelled from the spec:
`get_buffer` returns the node's resolved per-block parameter buffer, a
render-time buffer whose channels have the fixed block length. -/
structure GraphNode where
  buffer : List (List Int)
deriving Repr

/-- `Node::get_buffer`. -/
def GraphNode.get_buffer (n : GraphNode) : List (List Int) := n.buffer

/-- Modelled from the spec: a coarse-rate (K-rate) parameter resolves to a
single value broadcast across the whole block. -/
def coarseBlock (v : Int) : List (List Int) :=
  [List.replicate BUFFER_SIZE v]

/-- Modelled from the spec: a fine-rate (A-rate) parameter resolves to one
value per sample of the block. -/
def fineBlock (vals : List Int) : List (List Int) :=
  [vals]

/-- `AudioParamValues::get_raw`: look the parameter's node up in the
`IntMap` registry and `unwrap` the result.  The registry is modelled as a
partial map from node indices; `none` models the `unwrap` panic on an
absent index. -/
def AudioParamValues.get_raw (nodes : Nat → Option GraphNode) (index : Nat) :
    Option (List (List Int)) :=
  (nodes index).map GraphNode.get_buffer

/-- `AudioParamValues::get`: channel 0 of the raw buffer, as a read-only
slice; `none` models a panic (absent node, or a buffer with no
channels). -/
def AudioParamValues.get (nodes : Nat → Option GraphNode) (index : Nat) :
    Option (List Int) :=
  (AudioParamValues.get_raw nodes index).bind fun buf => buf.head?

/-! ## Resampler lemmas -/

/-- The post-loop emit logic, once the accumulator has reached the target
length: emit the first `L` samples and retain the suffix (empty suffix
meaning no leftover). -/
theorem resampleEmit_eq {ε : Type} (L : Nat) (buffer : Buf)
    (input : List (Except ε Buf)) :
    resampleEmit L buffer input =
      (some (.ok (buffer.take L)),
        ⟨L, input, if buffer.length = L then none else some (buffer.drop L)⟩) := by
  unfold resampleEmit
  split
  · rename_i heq
    simp [heq, List.take_of_length_le (Nat.le_of_eq heq)]
  · rename_i hne
    simp [hne]

/-- After the accumulation loop, the retained leftover is either absent or
the nonempty suffix past the target-length boundary of an overshooting
accumulation (whose first `L` samples are the emitted item). -/
theorem resampleLoop_leftover {ε : Type} (L : Nat) :
    ∀ (input : List (Except ε Buf)) (b : Buf),
      (resampleLoop L b input).2.buffer = none ∨
      ∃ c : Buf, L < c.length ∧
        (resampleLoop L b input).1 = some (.ok (c.take L)) ∧
        (resampleLoop L b input).2.buffer = some (c.drop L) := by
  intro input
  induction input with
  | nil =>
    intro b
    by_cases hlt : b.length < L
    · left; simp [resampleLoop, hlt]
    · rw [show resampleLoop (ε := ε) L b [] = resampleEmit L b [] by
        simp [resampleLoop, hlt]]
      rw [resampleEmit_eq L b []]
      by_cases heq : b.length = L
      · left; simp [heq]
      · right
        exact ⟨b, Nat.lt_of_le_of_ne (Nat.le_of_not_lt hlt) (Ne.symm heq),
          by simp [heq], by simp [heq]⟩
  | cons x rest ih =>
    intro b
    by_cases hlt : b.length < L
    · match x with
      | .error e => left; simp [resampleLoop, hlt]
      | .ok data =>
        rw [show resampleLoop (ε := ε) L b (.ok data :: rest) =
            resampleLoop L (bufExtend b (resampleTo data)) rest by
          simp [resampleLoop, hlt]]
        exact ih (bufExtend b (resampleTo data))
    · rw [show resampleLoop (ε := ε) L b (x :: rest) =
        resampleEmit L b (x :: rest) by simp [resampleLoop, hlt]]
      rw [resampleEmit_eq L b (x :: rest)]
      by_cases heq : b.length = L
      · left; simp [heq]
      · right
        exact ⟨b, Nat.lt_of_le_of_ne (Nat.le_of_not_lt hlt) (Ne.symm heq),
          by simp [heq], by simp [heq]⟩

/-- If the accumulator plus every successful item before the error stays
strictly below the target length, the loop reaches the error and returns
it at once, consuming nothing past it and emptying the internal buffer. -/
theorem resampleLoop_error {ε : Type} (L : Nat) (e : ε)
    (rest : List (Except ε Buf)) :
    ∀ (pre : List Buf) (b : Buf),
      b.length + pre.flatten.length < L →
      resampleLoop L b (pre.map .ok ++ .error e :: rest) =
        (some (.error e), ⟨L, rest, none⟩) := by
  intro pre
  induction pre with
  | nil =>
    intro b h
    simp only [List.flatten_nil, List.length_nil, Nat.add_zero] at h
    simp [resampleLoop, h]
  | cons d pre' ih =>
    intro b h
    rw [List.flatten_cons, List.length_append] at h
    have hblt : b.length < L := by omega
    show resampleLoop L b (.ok d :: (pre'.map .ok ++ .error e :: rest)) = _
    rw [show resampleLoop (ε := ε) L b
        (.ok d :: (pre'.map .ok ++ .error e :: rest)) =
        resampleLoop L (bufExtend b (resampleTo d))
          (pre'.map .ok ++ .error e :: rest) by simp [resampleLoop, hblt]]
    apply ih
    show (b ++ d).length + pre'.flatten.length < L
    rw [List.length_append]
    omega

/-- One-step unfolding of `Resampler.drain`. -/
theorem drain_succ {ε : Type} (fuel : Nat) (st : ResamplerState ε) :
    Resampler.drain (fuel + 1) st =
      match Resampler.next st with
      | (none, _) => ([], true)
      | (some item, st') =>
        (item :: (Resampler.drain fuel st').1, (Resampler.drain fuel st').2) := rfl

/-- `drain` after a successful `next`. -/
theorem drain_succ_of_next_some {ε : Type} (fuel : Nat) (st : ResamplerState ε)
    (item : Except ε Buf) (st' : ResamplerState ε)
    (h : Resampler.next st = (some item, st')) :
    Resampler.drain (fuel + 1) st =
      (item :: (Resampler.drain fuel st').1, (Resampler.drain fuel st').2) := by
  rw [drain_succ, h]

/-- A resampler with no leftover and exhausted input signals
end-of-sequence at once. -/
theorem drain_none_nil {ε : Type} (L fuel : Nat) (h : 0 < fuel) :
    Resampler.drain (ε := ε) fuel ⟨L, [], none⟩ = ([], true) := by
  match fuel with
  | 0 => exact absurd h (by omega)
  | f + 1 => rfl

/-- Characterization of the accumulation loop on error-free input: the
loop consumes a first group `used` of the input items; either the whole
input is consumed while the accumulation stays short, in which case the
zero-padded accumulation is emitted terminally, or the accumulation
reaches the target length, in which case its first `L` samples are emitted
and the overshoot (if any) is retained. -/
theorem resampleLoop_ok_cases {ε : Type} (L : Nat) :
    ∀ (inputs : List Buf) (b : Buf),
      ∃ used rest : List Buf, inputs = used ++ rest ∧
        (((b ++ used.flatten).length < L ∧ rest = [] ∧
          resampleLoop (ε := ε) L b (inputs.map .ok) =
            (some (.ok ((b ++ used.flatten) ++
              zeroBuf (L - (b ++ used.flatten).length))), ⟨L, [], none⟩)) ∨
        (L ≤ (b ++ used.flatten).length ∧
          resampleLoop (ε := ε) L b (inputs.map .ok) =
            (some (.ok ((b ++ used.flatten).take L)),
             ⟨L, rest.map .ok,
              if (b ++ used.flatten).length = L then none
              else some ((b ++ used.flatten).drop L)⟩))) := by
  intro inputs
  induction inputs with
  | nil =>
    intro b
    refine ⟨[], [], rfl, ?_⟩
    by_cases hlt : b.length < L
    · refine Or.inl ⟨by simpa using hlt, rfl, ?_⟩
      simp [resampleLoop, hlt, bufExtend]
    · refine Or.inr ⟨by simpa using Nat.le_of_not_lt hlt, ?_⟩
      rw [show resampleLoop (ε := ε) L b (([] : List Buf).map .ok) =
        resampleEmit L b [] from by simp [resampleLoop, hlt]]
      rw [resampleEmit_eq L b []]
      simp
  | cons d rest' ih =>
    intro b
    by_cases hlt : b.length < L
    · obtain ⟨used', rest, heq, hcase⟩ := ih (b ++ d)
      refine ⟨d :: used', rest, by simp [heq], ?_⟩
      have hstep : resampleLoop (ε := ε) L b ((d :: rest').map .ok) =
          resampleLoop L (b ++ d) (rest'.map .ok) := by
        simp [resampleLoop, hlt, bufExtend, resampleTo]
      have hc : b ++ (d :: used').flatten = (b ++ d) ++ used'.flatten := by
        simp [List.flatten_cons]
      rw [hstep, hc]
      exact hcase
    · refine ⟨[], d :: rest', rfl, Or.inr ⟨?_, ?_⟩⟩
      · simpa using Nat.le_of_not_lt hlt
      · simp only [List.flatten_nil, List.append_nil]
        rw [show resampleLoop (ε := ε) L b ((d :: rest').map .ok) =
            resampleEmit L b ((d :: rest').map .ok) by simp [resampleLoop, hlt]]
        exact resampleEmit_eq L b _

/-- Complete-run characterization of the resampler over error-free input:
with enough fuel the drain terminates; all emitted buffers have the target
length; their concatenation is the concatenation of the leftover and the
input samples followed by the final zero padding, whose size is smaller
than one block (it never spills into a non-final buffer). -/
theorem drain_ok_spec {ε : Type} (L : Nat) (hL : 0 < L) :
    ∀ (fuel : Nat) (inputs : List Buf) (b? : Option Buf),
      (b?.getD [] ++ inputs.flatten).length + inputs.length + 1 < fuel →
      ∃ bufs : List Buf,
        Resampler.drain (ε := ε) fuel ⟨L, inputs.map .ok, b?⟩ =
          (bufs.map .ok, true) ∧
        (∀ x ∈ bufs, x.length = L) ∧
        bufs.flatten = (b?.getD [] ++ inputs.flatten) ++
          zeroBuf (L * bufs.length - (b?.getD [] ++ inputs.flatten).length) ∧
        (b?.getD [] ++ inputs.flatten).length ≤ L * bufs.length ∧
        L * bufs.length ≤ (b?.getD [] ++ inputs.flatten).length + L := by
  intro fuel
  induction fuel with
  | zero => intro inputs b? h; exact absurd h (by omega)
  | succ fuel ih =>
    intro inputs b? hbound
    have key : ∀ (b : Buf) (ins : List Buf),
        (b ++ ins.flatten).length + ins.length + 1 < fuel + 1 →
        ∃ bufs : List Buf,
          Resampler.drain (ε := ε) (fuel + 1) ⟨L, ins.map .ok, some b⟩ =
            (bufs.map .ok, true) ∧
          (∀ x ∈ bufs, x.length = L) ∧
          bufs.flatten = (b ++ ins.flatten) ++
            zeroBuf (L * bufs.length - (b ++ ins.flatten).length) ∧
          (b ++ ins.flatten).length ≤ L * bufs.length ∧
          L * bufs.length ≤ (b ++ ins.flatten).length + L := by
      intro b ins hb
      obtain ⟨used, rest, hsplit, hcase⟩ := resampleLoop_ok_cases (ε := ε) L ins b
      have hnext : Resampler.next (⟨L, ins.map .ok, some b⟩ : ResamplerState ε) =
          resampleLoop L b (ins.map .ok) := rfl
      rcases hcase with ⟨hclt, hrest, hloop⟩ | ⟨hcge, hloop⟩
      · -- the input is exhausted short of the target length: pad and stop
        subst hrest
        rw [List.append_nil] at hsplit
        subst hsplit
        refine ⟨[(b ++ ins.flatten) ++ zeroBuf (L - (b ++ ins.flatten).length)],
          ?_, ?_, ?_, ?_, ?_⟩
        · rw [drain_succ_of_next_some fuel _ _ _ (hnext.trans hloop),
            drain_none_nil L fuel (by omega)]
          simp
        · intro x hx
          rw [List.mem_singleton] at hx
          subst hx
          rw [List.length_append, zeroBuf, List.length_replicate]
          omega
        · simp [Nat.mul_one]
        · simp only [List.length_singleton, Nat.mul_one]; omega
        · simp only [List.length_singleton, Nat.mul_one]; omega
      · -- the accumulation reached the target length: emit and recurse
        have hpool : b ++ ins.flatten = (b ++ used.flatten) ++ rest.flatten := by
          rw [hsplit, List.flatten_append, List.append_assoc]
        have hgetd :
            (if (b ++ used.flatten).length = L then (none : Option Buf)
              else some ((b ++ used.flatten).drop L)).getD [] =
            (b ++ used.flatten).drop L := by
          by_cases hceq : (b ++ used.flatten).length = L
          · rw [if_pos hceq, Option.getD_none,
              List.drop_of_length_le (Nat.le_of_eq hceq)]
          · rw [if_neg hceq, Option.getD_some]
        have hrestlen : rest.length ≤ ins.length := by
          rw [hsplit, List.length_append]; omega
        have hpoollen :
            ((b ++ used.flatten).drop L ++ rest.flatten).length + L =
              (b ++ ins.flatten).length := by
          rw [hpool, List.length_append, List.length_append, List.length_drop]
          omega
        obtain ⟨bufs', hdrain', hlen', hjoin', hle1', hle2'⟩ :=
          ih rest (if (b ++ used.flatten).length = L then none
            else some ((b ++ used.flatten).drop L))
            (by rw [hgetd]; omega)
        refine ⟨(b ++ used.flatten).take L :: bufs', ?_, ?_, ?_, ?_, ?_⟩
        · rw [drain_succ_of_next_some fuel _ _ _ (hnext.trans hloop), hdrain']
          simp
        · intro x hx
          rcases List.mem_cons.mp hx with hx | hx
          · subst hx
            rw [List.length_take]
            omega
          · exact hlen' x hx
        · rw [List.flatten_cons, hjoin', hgetd, ← List.append_assoc,
            ← List.append_assoc, List.take_append_drop, ← hpool]
          have hexp : L * ((b ++ used.flatten).take L :: bufs').length -
              (b ++ ins.flatten).length =
              L * bufs'.length -
                ((b ++ used.flatten).drop L ++ rest.flatten).length := by
            rw [List.length_cons, Nat.mul_succ]
            omega
          rw [hexp]
        · rw [hgetd] at hle1'
          rw [List.length_cons, Nat.mul_succ]
          omega
        · rw [hgetd] at hle2'
          rw [List.length_cons, Nat.mul_succ]
          omega
    match inputs, b? with
    | [], none =>
      refine ⟨[], ?_, ?_, ?_, ?_, ?_⟩
      · exact drain_none_nil L (fuel + 1) (by omega)
      · intro x hx; exact absurd hx (List.not_mem_nil x)
      · simp [zeroBuf]
      · simp
      · simp
    | d :: rest, none =>
      have hdrain_eq :
          Resampler.drain (ε := ε) (fuel + 1) ⟨L, (d :: rest).map .ok, none⟩ =
          Resampler.drain (ε := ε) (fuel + 1) ⟨L, rest.map .ok, some d⟩ := rfl
      obtain ⟨bufs, h1, h2, h3, h4, h5⟩ := key d rest (by
        simp only [Option.getD_none, List.nil_append, List.flatten_cons,
          List.length_append, List.length_cons] at hbound ⊢
        omega)
      refine ⟨bufs, hdrain_eq.trans h1, h2, ?_, ?_, ?_⟩
      · simpa [List.flatten_cons] using h3
      · simpa [List.flatten_cons] using h4
      · simpa [List.flatten_cons] using h5
    | inputs, some b =>
      exact key b inputs (by simpa using hbound)

/-- C1: for every finite sequence of successful input buffers already at
the target rate and every positive target length `L`, the complete
sequence emitted by `Resampler::next` (obtained by draining with enough
fuel) consists of successful buffers, every one of length exactly `L` (so
in particular all but the last), whose concatenation is the concatenation
of the input samples followed by the final zero padding; the padding is
confined to the last buffer (`L * count ≤ total + L`) and covers exactly
the shortfall of the final remainder (`total ≤ L * count`).  Moreover, in
the two concrete scenarios of the claim: inputs of lengths `[5,5,5]` with
`L = 10` yield exactly two outputs — inputs 1 and 2 concatenated, then
input 3 followed by 5 zeros — and one input of length 10 with `L = 5`
yields exactly two unpadded outputs of length 5, after which the sequence
ends (completion flag `true`). -/
theorem resampler_block_alignment :
    (∀ (ε : Type) (L : Nat) (inputs : List Buf) (fuel : Nat), 0 < L →
      inputs.flatten.length + inputs.length + 1 < fuel →
      ∃ bufs : List Buf,
        Resampler.drain (ε := ε) fuel ⟨L, inputs.map .ok, none⟩ =
          (bufs.map .ok, true) ∧
        (∀ x ∈ bufs, x.length = L) ∧
        bufs.flatten = inputs.flatten ++
          zeroBuf (L * bufs.length - inputs.flatten.length) ∧
        inputs.flatten.length ≤ L * bufs.length ∧
        L * bufs.length ≤ inputs.flatten.length + L) ∧
    Resampler.drain 20
      (⟨10, [Except.ok [1, 2, 3, 4, 5], Except.ok [1, 2, 3, 4, 5],
             Except.ok [1, 2, 3, 4, 5]], none⟩ : ResamplerState Unit) =
      ([Except.ok [1, 2, 3, 4, 5, 1, 2, 3, 4, 5],
        Except.ok [1, 2, 3, 4, 5, 0, 0, 0, 0, 0]], true) ∧
    Resampler.drain 20
      (⟨5, [Except.ok [1, 2, 3, 4, 5, 6, 7, 8, 9, 10]], none⟩ :
        ResamplerState Unit) =
      ([Except.ok [1, 2, 3, 4, 5], Except.ok [6, 7, 8, 9, 10]], true) := by
  refine ⟨?_, rfl, rfl⟩
  intro ε L inputs fuel hL hfuel
  obtain ⟨bufs, h1, h2, h3, h4, h5⟩ :=
    drain_ok_spec (ε := ε) L hL fuel inputs none (by simpa using hfuel)
  exact ⟨bufs, h1, h2, by simpa using h3, by simpa using h4, by simpa using h5⟩

/-- Witness for C1 at the `[5,5,5]`, `L = 10` scenario. -/
theorem resampler_block_alignment_witness :
    ∃ bufs : List Buf,
      Resampler.drain (ε := Unit) 20
        ⟨10, ([[1, 2, 3, 4, 5], [1, 2, 3, 4, 5], [1, 2, 3, 4, 5]] :
          List Buf).map .ok, none⟩ = (bufs.map .ok, true) ∧
      (∀ x ∈ bufs, x.length = 10) ∧
      bufs.flatten =
        ([[1, 2, 3, 4, 5], [1, 2, 3, 4, 5], [1, 2, 3, 4, 5]] :
          List Buf).flatten ++
        zeroBuf (10 * bufs.length -
          ([[1, 2, 3, 4, 5], [1, 2, 3, 4, 5], [1, 2, 3, 4, 5]] :
            List Buf).flatten.length) ∧
      ([[1, 2, 3, 4, 5], [1, 2, 3, 4, 5], [1, 2, 3, 4, 5]] :
        List Buf).flatten.length ≤ 10 * bufs.length ∧
      10 * bufs.length ≤
        ([[1, 2, 3, 4, 5], [1, 2, 3, 4, 5], [1, 2, 3, 4, 5]] :
          List Buf).flatten.length + 10 :=
  resampler_block_alignment.1 Unit 10
    [[1, 2, 3, 4, 5], [1, 2, 3, 4, 5], [1, 2, 3, 4, 5]] 20
    (by decide) (by decide)

/-- C7 counterexample: with one input of length 10 and target length 5
(the repository's own `test_resampler_split` scenario), the leftover
retained after the first pull is `[6,7,8,9,10]`, of length 5 — equal to
the target length, not strictly shorter than it. -/
theorem resampler_leftover_length_counterexample :
    (Resampler.next (⟨5, [Except.ok [1, 2, 3, 4, 5, 6, 7, 8, 9, 10]], none⟩ :
        ResamplerState Unit)).2.buffer = some [6, 7, 8, 9, 10] ∧
    ¬ ([6, 7, 8, 9, 10] : Buf).length < 5 :=
  ⟨rfl, by decide⟩

/-- C7 (amended): after every completed pull of `Resampler::next`, the
resampler retains at most one leftover buffer (the single `Option`-valued
internal buffer), and a retained leftover is exactly the nonempty suffix
past the target-length boundary of an overshooting accumulation `c`, whose
first `sample_len` samples were the emitted item; its length is
`c.length - sample_len`, which need not be smaller than `sample_len`. -/
theorem resampler_leftover_overshoot_suffix {ε : Type} (st : ResamplerState ε) :
    (Resampler.next st).2.buffer = none ∨
    ∃ c : Buf, st.sample_len < c.length ∧
      (Resampler.next st).1 = some (.ok (c.take st.sample_len)) ∧
      (Resampler.next st).2.buffer = some (c.drop st.sample_len) ∧
      c.drop st.sample_len ≠ [] := by
  have key : ∀ (b : Buf) (input : List (Except ε Buf)),
      (resampleLoop st.sample_len b input).2.buffer = none ∨
      ∃ c : Buf, st.sample_len < c.length ∧
        (resampleLoop st.sample_len b input).1 = some (.ok (c.take st.sample_len)) ∧
        (resampleLoop st.sample_len b input).2.buffer = some (c.drop st.sample_len) ∧
        c.drop st.sample_len ≠ [] := by
    intro b input
    rcases resampleLoop_leftover st.sample_len input b with h | ⟨c, hc, h1, h2⟩
    · exact Or.inl h
    · refine Or.inr ⟨c, hc, h1, h2, ?_⟩
      apply List.ne_nil_of_length_pos
      rw [List.length_drop]
      omega
  match hb : st.buffer, hi : st.input with
  | none, [] => left; simp [Resampler.next, hb, hi]
  | none, .error e :: rest => left; simp [Resampler.next, hb, hi]
  | none, .ok data :: rest =>
    have : Resampler.next st = resampleLoop st.sample_len (resampleTo data) rest := by
      simp [Resampler.next, hb, hi]
    rw [this]; exact key (resampleTo data) rest
  | some data, input =>
    have : Resampler.next st = resampleLoop st.sample_len data st.input := by
      simp [Resampler.next, hb]
    rw [this, hi]; exact key data input

/-- Witness for the amended C7 at the overshooting scenario of
`test_resampler_split`. -/
theorem resampler_leftover_overshoot_suffix_witness :
    (Resampler.next (⟨5, [Except.ok [1, 2, 3, 4, 5, 6, 7, 8, 9, 10]], none⟩ :
        ResamplerState Unit)).2.buffer = none ∨
    ∃ c : Buf, 5 < c.length ∧
      (Resampler.next (⟨5, [Except.ok [1, 2, 3, 4, 5, 6, 7, 8, 9, 10]], none⟩ :
        ResamplerState Unit)).1 = some (.ok (c.take 5)) ∧
      (Resampler.next (⟨5, [Except.ok [1, 2, 3, 4, 5, 6, 7, 8, 9, 10]], none⟩ :
        ResamplerState Unit)).2.buffer = some (c.drop 5) ∧
      c.drop 5 ≠ [] :=
  resampler_leftover_overshoot_suffix
    (⟨5, [Except.ok [1, 2, 3, 4, 5, 6, 7, 8, 9, 10]], none⟩ : ResamplerState Unit)

/-- C3: on a pull of `Resampler::next` in which the input stream yields an
error item — on the very first input pull of the call or while
accumulating toward the target length — the pull returns `Some(Err)` with
that very error, pulls nothing further from the input (the remaining input
is exactly the items past the error), and emits no buffer in that call.
The hypothesis states that the accumulated samples (leftover plus the
successful items before the error) stay below the target length, i.e. that
the accumulation really reaches the error item. -/
theorem resampler_error_immediate {ε : Type} (L : Nat) (b? : Option Buf)
    (pre : List Buf) (e : ε) (rest : List (Except ε Buf))
    (h : (b?.getD []).length + pre.flatten.length < L) :
    Resampler.next ⟨L, pre.map .ok ++ .error e :: rest, b?⟩ =
      (some (.error e), ⟨L, rest, none⟩) := by
  match b?, pre with
  | none, [] => rfl
  | none, d :: pre' =>
    show Resampler.next ⟨L, .ok d :: (pre'.map .ok ++ .error e :: rest), none⟩ = _
    have : Resampler.next ⟨L, .ok d :: (pre'.map .ok ++ .error e :: rest), none⟩ =
        resampleLoop L (resampleTo d) (pre'.map .ok ++ .error e :: rest) := rfl
    rw [this]
    apply resampleLoop_error
    show d.length + pre'.flatten.length < L
    simp only [Option.getD_none, List.length_nil, Nat.zero_add,
      List.flatten_cons, List.length_append] at h ⊢
    omega
  | some b, pre =>
    have : Resampler.next ⟨L, pre.map .ok ++ .error e :: rest, some b⟩ =
        resampleLoop L b (pre.map .ok ++ .error e :: rest) := rfl
    rw [this]
    apply resampleLoop_error
    simpa using h

/-- Witness for C3: leftover `[1,2]`, one successful item `[3]`, then an
error, with target length 6. -/
theorem resampler_error_immediate_witness :
    Resampler.next (⟨6, [Except.ok [3], Except.error (), Except.ok [9]],
        some [1, 2]⟩ : ResamplerState Unit) =
      (some (.error ()), ⟨6, [Except.ok [9]], none⟩) :=
  resampler_error_immediate 6 (some [1, 2]) [[3]] () [Except.ok [9]] (by decide)

/-- C8: when a pull hits an input error, everything accumulated in that
pull — including the leftover taken out of the internal buffer at the
start of the call — is discarded: the post-error state is exactly the
state of a fresh resampler over the remaining input, with an empty
internal buffer, so the discarded samples can appear in no later emission
and the error is not sticky (subsequent pulls behave as a fresh resampler
on the remaining input would). -/
theorem resampler_error_discards_accumulated {ε : Type} (L : Nat)
    (b? : Option Buf) (pre : List Buf) (e : ε) (rest : List (Except ε Buf))
    (h : (b?.getD []).length + pre.flatten.length < L) :
    (Resampler.next ⟨L, pre.map .ok ++ .error e :: rest, b?⟩).2.buffer = none ∧
    (Resampler.next ⟨L, pre.map .ok ++ .error e :: rest, b?⟩).2 =
      ⟨L, rest, none⟩ ∧
    ∀ fuel, Resampler.drain fuel
        (Resampler.next ⟨L, pre.map .ok ++ .error e :: rest, b?⟩).2 =
      Resampler.drain fuel ⟨L, rest, none⟩ := by
  have key : Resampler.next ⟨L, pre.map .ok ++ .error e :: rest, b?⟩ =
      (some (.error e), ⟨L, rest, none⟩) := by
    match b?, pre with
    | none, [] => rfl
    | none, d :: pre' =>
      have : Resampler.next ⟨L, .ok d :: (pre'.map .ok ++ .error e :: rest), none⟩ =
          resampleLoop L (resampleTo d) (pre'.map .ok ++ .error e :: rest) := rfl
      rw [List.map_cons, List.cons_append, this]
      apply resampleLoop_error
      show d.length + pre'.flatten.length < L
      simp only [Option.getD_none, List.length_nil, Nat.zero_add,
        List.flatten_cons, List.length_append] at h
      omega
    | some b, pre =>
      have : Resampler.next ⟨L, pre.map .ok ++ .error e :: rest, some b⟩ =
          resampleLoop L b (pre.map .ok ++ .error e :: rest) := rfl
      rw [this]
      apply resampleLoop_error
      simpa using h
  rw [key]
  exact ⟨rfl, rfl, fun _ => rfl⟩

/-- Witness for C8: after the error, draining continues as a fresh
resampler over the remaining input. -/
theorem resampler_error_discards_accumulated_witness :
    (Resampler.next (⟨6, [Except.ok [3], Except.error (), Except.ok [9]],
        some [1, 2]⟩ : ResamplerState Unit)).2.buffer = none ∧
    (Resampler.next (⟨6, [Except.ok [3], Except.error (), Except.ok [9]],
        some [1, 2]⟩ : ResamplerState Unit)).2 = ⟨6, [Except.ok [9]], none⟩ ∧
    ∀ fuel, Resampler.drain fuel
        (Resampler.next (⟨6, [Except.ok [3], Except.error (), Except.ok [9]],
          some [1, 2]⟩ : ResamplerState Unit)).2 =
      Resampler.drain fuel (⟨6, [Except.ok [9]], none⟩ : ResamplerState Unit) :=
  resampler_error_discards_accumulated 6 (some [1, 2]) [[3]] ()
    [Except.ok [9]] (by decide)

/-! ## Theorems for the destination bridge and the parameter accessor -/

/-- Invariant of the interleaved bridge execution: the observed buffers
followed by the pending slot content always form a sublist of an upper
bound `acc` extended by the conversions of the blocks rendered so far.
Dropping an unconsumed item (`try_recv` before a send) only shrinks the
left-hand side, so the sublist survives every step. -/
theorem bridgeRun_sublist (rate : Nat) :
    ∀ (evs : List BridgeEvent) (slot : Option ABuffer) (obs acc : List ABuffer),
      List.Sublist (obs ++ slot.toList) acc →
      List.Sublist ((evs.foldl (bridgeStep rate) (slot, obs)).2 ++
          ((evs.foldl (bridgeStep rate) (slot, obs)).1).toList)
        (acc ++ (renderedBlocks evs).map (blockBuffer rate)) := by
  intro evs
  induction evs with
  | nil =>
    intro slot obs acc h
    simpa [renderedBlocks] using h
  | cons ev evs ih =>
    intro slot obs acc h
    match ev with
    | .renderBlock q =>
      have hstep : bridgeStep rate (slot, obs) (.renderBlock q) =
          (some (blockBuffer rate q), obs) := rfl
      have hobs : List.Sublist obs acc :=
        (List.sublist_append_left obs slot.toList).trans h
      have h' : List.Sublist (obs ++ (some (blockBuffer rate q)).toList)
          (acc ++ [blockBuffer rate q]) := hobs.append_right _
      have := ih (some (blockBuffer rate q)) obs (acc ++ [blockBuffer rate q]) h'
      simpa [renderedBlocks, hstep, List.append_assoc] using this
    | .consume =>
      match slot with
      | some b =>
        have hstep : bridgeStep rate (some b, obs) .consume = (none, obs ++ [b]) := rfl
        have h' : List.Sublist ((obs ++ [b]) ++ (Option.toList (α := ABuffer) none)) acc := by
          simpa using h
        have := ih none (obs ++ [b]) acc h'
        simpa [renderedBlocks, hstep] using this
      | none =>
        have hstep : bridgeStep rate ((none : Option ABuffer), obs) .consume =
            (none, obs) := rfl
        have := ih none obs acc (by simpa using h)
        simpa [renderedBlocks, hstep] using this

/-- C2: in every interleaved execution of the destination bridge, the
buffers a consumer observes form a sublist of the per-block conversions of
the rendered blocks, in order: the number of observed buffers never
exceeds the number of blocks rendered, and every observed buffer is the
conversion of exactly one rendered block — with the same channel count and
channel-for-channel identical samples — never a blend of two blocks. -/
theorem destination_observed_blocks (rate : Nat) (evs : List BridgeEvent) :
    List.Sublist (bridgeRun rate evs).2
      ((renderedBlocks evs).map (blockBuffer rate)) ∧
    (bridgeRun rate evs).2.length ≤ (renderedBlocks evs).length ∧
    (∀ b ∈ (bridgeRun rate evs).2,
      ∃ q ∈ renderedBlocks evs, b = blockBuffer rate q) ∧
    (∀ q : AudioRenderQuantum, (blockBuffer rate q).samples = q.channels ∧
      (blockBuffer rate q).samples.length = q.channels.length) := by
  have hinv := bridgeRun_sublist rate evs none [] [] (by simp)
  have hsub : List.Sublist (bridgeRun rate evs).2
      ((renderedBlocks evs).map (blockBuffer rate)) := by
    refine List.Sublist.trans ?_ (by simpa using hinv)
    exact List.sublist_append_left _ _
  refine ⟨hsub, ?_, ?_, ?_⟩
  · have := hsub.length_le
    simpa [List.length_map] using this
  · intro b hb
    have := hsub.subset hb
    rcases List.mem_map.mp this with ⟨q, hq, hconv⟩
    exact ⟨q, hq, hconv.symm⟩
  · intro q
    constructor
    · show q.channels.map (fun c => c) = q.channels
      simp
    · show (q.channels.map (fun c => c)).length = q.channels.length
      simp

/-- Witness for C2 at a two-event execution: one rendered block, one
consumer poll. -/
theorem destination_observed_blocks_witness :
    List.Sublist (bridgeRun 1 [.renderBlock ⟨[[1, 2], [3, 4]]⟩, .consume]).2
      ((renderedBlocks [.renderBlock ⟨[[1, 2], [3, 4]]⟩, .consume]).map
        (blockBuffer 1)) ∧
    (bridgeRun 1 [.renderBlock ⟨[[1, 2], [3, 4]]⟩, .consume]).2.length ≤
      (renderedBlocks [.renderBlock ⟨[[1, 2], [3, 4]]⟩, .consume]).length ∧
    (∀ b ∈ (bridgeRun 1 [.renderBlock ⟨[[1, 2], [3, 4]]⟩, .consume]).2,
      ∃ q ∈ renderedBlocks [.renderBlock ⟨[[1, 2], [3, 4]]⟩, .consume],
        b = blockBuffer 1 q) ∧
    (∀ q : AudioRenderQuantum, (blockBuffer 1 q).samples = q.channels ∧
      (blockBuffer 1 q).samples.length = q.channels.length) :=
  destination_observed_blocks 1 [.renderBlock ⟨[[1, 2], [3, 4]]⟩, .consume]

/-- C4: on every invocation of the destination bridge's process call, any
still-unconsumed previous item is discarded from the capacity-one channel
(`try_recv` leaves the slot empty) before the new buffer is sent; hence
the channel holds at most the one new buffer, the send always finds a free
slot (success flag `true`), and the render thread never blocks on this
send. -/
theorem destination_send_never_blocks (q : AudioRenderQuantum)
    (rest : List AudioRenderQuantum) (slot : Option ABuffer) (sample_rate : Nat) :
    (channelTryRecv slot).2 = none ∧
    DestinationRenderer.process (q :: rest) slot sample_rate =
      some (some (blockBuffer sample_rate q), true, false) :=
  ⟨rfl, rfl⟩

/-- Witness for C4 with a stale buffer still pending in the channel. -/
theorem destination_send_never_blocks_witness :
    (channelTryRecv (some (⟨[[9]], 1⟩ : ABuffer))).2 = none ∧
    DestinationRenderer.process [⟨[[1, 2]]⟩] (some ⟨[[9]], 1⟩) 1 =
      some (some (blockBuffer 1 ⟨[[1, 2]]⟩), true, false) :=
  destination_send_never_blocks ⟨[[1, 2]]⟩ [] (some ⟨[[9]], 1⟩) 1

/-- C5: when the render side's sending end has been dropped and no buffer
remains in the channel, the consumer stream's `next` returns the
disconnected condition as an error item `Some(Err(_))` of the sequence —
never as the end-of-sequence `None`; a buffer still pending in the channel
is instead delivered as `Some(Ok(_))`. -/
theorem destination_disconnected_yields_error_item :
    AudioDestinationNodeStream.next none true =
      (some (.error .disconnected), none) ∧
    (∀ b : ABuffer,
      AudioDestinationNodeStream.next (some b) true = (some (.ok b), none)) ∧
    (AudioDestinationNodeStream.next none true).1 ≠ none :=
  ⟨rfl, fun _ => rfl, by
    intro h
    simp [AudioDestinationNodeStream.next, channelRecv] at h⟩

/-- C9: `DestinationRenderer::process` returns `false` on every
invocation, for every input quantum, channel state and sample rate; under
the graph's pruning rule (a unit is removed when unreachable and its
processing call returned `false`) the destination bridge node is therefore
eligible for removal exactly when it becomes unreachable. -/
theorem destination_process_returns_false :
    (∀ (q : AudioRenderQuantum) (rest : List AudioRenderQuantum)
        (slot : Option ABuffer) (sample_rate : Nat),
      ∃ (slot' : Option ABuffer) (sent : Bool),
        DestinationRenderer.process (q :: rest) slot sample_rate =
          some (slot', sent, false)) ∧
    (∀ unreachable : Bool, pruneEligible unreachable false = unreachable) :=
  ⟨fun _ _ _ _ => ⟨_, _, rfl⟩, fun u => by cases u <;> rfl⟩

/-- C10: `AudioParamValues::get_raw` unwraps the registry lookup, so it is
total exactly on handles present in the node registry: an absent index
yields the `unwrap` panic (modelled as `none`), while a present index
yields that node's buffer. -/
theorem audio_param_get_raw_panics_iff_absent
    (nodes : Nat → Option GraphNode) (index : Nat) :
    (nodes index = none → AudioParamValues.get_raw nodes index = none) ∧
    (∀ node : GraphNode, nodes index = some node →
      AudioParamValues.get_raw nodes index = some node.get_buffer) := by
  constructor
  · intro h; simp [AudioParamValues.get_raw, h]
  · intro node h; simp [AudioParamValues.get_raw, h]

/-- Witness for C10 at a concrete one-node registry. -/
theorem audio_param_get_raw_panics_iff_absent_witness :
    AudioParamValues.get_raw
      (fun i => if i = 0 then some ⟨[[1]]⟩ else none) 1 = none ∧
    AudioParamValues.get_raw
      (fun i => if i = 0 then some ⟨[[1]]⟩ else none) 0 =
      some (GraphNode.mk [[1]]).get_buffer :=
  ⟨(audio_param_get_raw_panics_iff_absent
      (fun i => if i = 0 then some ⟨[[1]]⟩ else none) 1).1 rfl,
   (audio_param_get_raw_panics_iff_absent
      (fun i => if i = 0 then some ⟨[[1]]⟩ else none) 0).2 ⟨[[1]]⟩ rfl⟩

/-- C6: for a parameter handle present in the registry, whose node holds a
resolved render-time buffer (non-empty channel set, each channel of the
fixed block length), `AudioParamValues::get` returns a read-only slice of
length exactly `BUFFER_SIZE`; a coarse-rate parameter's slice is one value
repeated across the whole block. -/
theorem audio_param_values_get_block_length
    (nodes : Nat → Option GraphNode) (index : Nat) (node : GraphNode)
    (hfind : nodes index = some node)
    (hne : node.buffer ≠ [])
    (hlen : ∀ c ∈ node.buffer, c.length = BUFFER_SIZE) :
    (∃ l, AudioParamValues.get nodes index = some l ∧ l.length = BUFFER_SIZE) ∧
    (∀ v : Int, node.buffer = coarseBlock v →
      AudioParamValues.get nodes index = some (List.replicate BUFFER_SIZE v)) := by
  constructor
  · match hb : node.buffer with
    | [] => exact absurd hb hne
    | c :: cs =>
      refine ⟨c, ?_, hlen c (by rw [hb]; exact List.mem_cons_self c cs)⟩
      simp [AudioParamValues.get, AudioParamValues.get_raw, hfind,
        GraphNode.get_buffer, hb]
  · intro v hv
    simp [AudioParamValues.get, AudioParamValues.get_raw, hfind,
      GraphNode.get_buffer, hv, coarseBlock]

/-- Witness for C6 at a concrete registry holding one coarse-rate node. -/
theorem audio_param_values_get_block_length_witness :
    (∃ l, AudioParamValues.get (fun _ => some ⟨coarseBlock 7⟩) 0 = some l ∧
      l.length = BUFFER_SIZE) ∧
    (∀ v : Int, (GraphNode.mk (coarseBlock 7)).buffer = coarseBlock v →
      AudioParamValues.get (fun _ => some ⟨coarseBlock 7⟩) 0 =
        some (List.replicate BUFFER_SIZE v)) :=
  audio_param_values_get_block_length (fun _ => some ⟨coarseBlock 7⟩) 0
    ⟨coarseBlock 7⟩ rfl (by simp [coarseBlock])
    (by intro c hc; simp [coarseBlock] at hc; simp [hc])

end WebAudio
